/-
Verification of the per-transaction object-mutation buffer (`TemporaryStore`)
from `crates/sui-types/src/temporary_store.rs`.

The Rust code is shallowly embedded: `BTreeMap` becomes a key-sorted
association list (`SMap`), machine integers become `Nat` with explicit
`2 ^ 64` bounds where overflow matters, fallible Rust code returns
`Except`, and Rust panics (`unwrap`, `expect`, `assert!`) are modelled by
`Option` (`none`) or by the distinguished error `ExecErr.panic` where the
surrounding Rust function returns a `Result`.

External collaborators that are declared in the repository but whose code
is not part of this crate slice (the gas meter `SuiGasStatus`, the coin
codec, `SequenceNumber::increment_to`, `gas::deduct_gas`) are modelled
from the specification; each such definition carries a doc comment saying
so.
-/
import Mathlib

/-! ## Sorted association maps, the embedding of `BTreeMap<ObjectID, V>` -/

/-- `BTreeMap<u64 (ObjectID), α>` as an association list kept sorted by key.
Iteration over the list models `BTreeMap` iteration (ascending key order). -/
abbrev SMap (α : Type) : Type := List (Nat × α)

/-- `BTreeMap::get`. -/
def SMap.lookup {α : Type} : SMap α → Nat → Option α
  | [], _ => none
  | (k', v) :: rest, k => if k = k' then some v else SMap.lookup rest k

/-- `BTreeMap::insert`: replaces the value at an existing key, otherwise
inserts at the sorted position. -/
def SMap.insert {α : Type} : SMap α → Nat → α → SMap α
  | [], k, v => [(k, v)]
  | (k', v') :: rest, k, v =>
    if k < k' then (k, v) :: (k', v') :: rest
    else if k = k' then (k, v) :: rest
    else (k', v') :: SMap.insert rest k v

/-- `BTreeMap::contains_key`. -/
def SMap.containsKey {α : Type} (m : SMap α) (k : Nat) : Bool :=
  (m.lookup k).isSome

/-- `BTreeMap::entry(k).or_insert_with(v)`: insert only if the key is absent. -/
def SMap.entryOrInsert {α : Type} (m : SMap α) (k : Nat) (v : α) : SMap α :=
  if m.containsKey k then m else m.insert k v

theorem SMap.lookup_insert {α : Type} (m : SMap α) (k k' : Nat) (v : α) :
    (m.insert k v).lookup k' = if k' = k then some v else m.lookup k' := by
  induction m with
  | nil => simp [SMap.insert, SMap.lookup]
  | cons hd tl ih =>
    obtain ⟨k0, v0⟩ := hd
    simp only [SMap.insert]
    by_cases h1 : k < k0
    · simp only [if_pos h1, SMap.lookup]
    · simp only [if_neg h1]
      by_cases h2 : k = k0
      · subst h2
        simp only [if_pos rfl, SMap.lookup]
        by_cases h3 : k' = k <;> simp [h3]
      · simp only [if_neg h2, SMap.lookup, ih]
        by_cases h3 : k' = k0
        · subst h3
          have hne : ¬ k' = k := fun h => h2 h.symm
          simp [hne]
        · simp [h3]

theorem SMap.mem_insert {α : Type} (m : SMap α) (k k' : Nat) (v v' : α)
    (h : (k', v') ∈ m.insert k v) : (k' = k ∧ v' = v) ∨ (k', v') ∈ m := by
  induction m with
  | nil =>
    simp only [SMap.insert, List.mem_singleton, Prod.mk.injEq] at h
    exact Or.inl h
  | cons hd tl ih =>
    obtain ⟨k0, v0⟩ := hd
    simp only [SMap.insert] at h
    by_cases h1 : k < k0
    · rw [if_pos h1] at h
      rcases List.mem_cons.mp h with h' | h'
      · exact Or.inl (by cases h'; exact ⟨rfl, rfl⟩)
      · exact Or.inr h'
    · rw [if_neg h1] at h
      by_cases h2 : k = k0
      · rw [if_pos h2] at h
        rcases List.mem_cons.mp h with h' | h'
        · exact Or.inl (by cases h'; exact ⟨rfl, rfl⟩)
        · exact Or.inr (List.mem_cons_of_mem _ h')
      · rw [if_neg h2] at h
        rcases List.mem_cons.mp h with h' | h'
        · exact Or.inr (by rw [h']; exact List.mem_cons_self _ _)
        · rcases ih h' with h'' | h''
          · exact Or.inl h''
          · exact Or.inr (List.mem_cons_of_mem _ h'')

/-- Folding insertions over a pair list (how `into_inner` rebuilds its output
maps): every entry of the result was either in the accumulator or is one of
the inserted pairs. -/
theorem SMap.mem_foldl_insert {α : Type} (pairs : List (Nat × α)) (acc : SMap α)
    (k : Nat) (v : α)
    (h : (k, v) ∈ pairs.foldl (fun m kv => m.insert kv.1 kv.2) acc) :
    (k, v) ∈ acc ∨ (k, v) ∈ pairs := by
  induction pairs generalizing acc with
  | nil => exact Or.inl h
  | cons hd tl ih =>
    simp only [List.foldl_cons] at h
    rcases ih (acc.insert hd.1 hd.2) h with h' | h'
    · rcases SMap.mem_insert acc hd.1 k hd.2 v h' with h'' | h''
      · refine Or.inr (List.mem_cons.mpr (Or.inl ?_))
        obtain ⟨h1, h2⟩ := h''
        cases hd
        simp_all
      · exact Or.inl h''
    · exact Or.inr (List.mem_cons.mpr (Or.inr h'))

theorem SMap.lookup_foldl_insert_of_not_mem {α : Type} (pairs : List (Nat × α))
    (acc : SMap α) (k : Nat) (h : k ∉ pairs.map Prod.fst) :
    (pairs.foldl (fun m kv => m.insert kv.1 kv.2) acc).lookup k = acc.lookup k := by
  induction pairs generalizing acc with
  | nil => rfl
  | cons hd tl ih =>
    simp only [List.map_cons, List.mem_cons, not_or] at h
    simp only [List.foldl_cons]
    rw [ih _ h.2, SMap.lookup_insert, if_neg h.1]

theorem SMap.lookup_foldl_insert_of_mem {α : Type} (pairs : List (Nat × α))
    (acc : SMap α) (k : Nat) (v : α)
    (hnd : (pairs.map Prod.fst).Nodup) (h : (k, v) ∈ pairs) :
    (pairs.foldl (fun m kv => m.insert kv.1 kv.2) acc).lookup k = some v := by
  induction pairs generalizing acc with
  | nil => simp at h
  | cons hd tl ih =>
    simp only [List.map_cons, List.nodup_cons] at hnd
    simp only [List.foldl_cons]
    rcases List.mem_cons.mp h with h' | h'
    · subst h'
      rw [SMap.lookup_foldl_insert_of_not_mem _ _ _ hnd.1, SMap.lookup_insert, if_pos rfl]
    · exact ih _ hnd.2 h'

theorem SMap.lookup_some_mem {α : Type} (m : SMap α) (k : Nat) (v : α)
    (h : m.lookup k = some v) : (k, v) ∈ m := by
  induction m with
  | nil => simp [SMap.lookup] at h
  | cons hd tl ih =>
    obtain ⟨k0, v0⟩ := hd
    simp only [SMap.lookup] at h
    by_cases h1 : k = k0
    · simp only [if_pos h1] at h
      subst h1
      cases h
      exact List.mem_cons_self _ _
    · simp only [if_neg h1] at h
      exact List.mem_cons.mpr (Or.inr (ih h))

theorem SMap.lookup_of_mem_nodup {α : Type} (k : Nat) (v : α) :
    ∀ (m : SMap α), (m.map Prod.fst).Nodup → (k, v) ∈ m → m.lookup k = some v := by
  intro m
  induction m with
  | nil => intro _ h; simp at h
  | cons hd tl ih =>
    intro hnd h
    obtain ⟨k0, v0⟩ := hd
    simp only [List.map_cons, List.nodup_cons] at hnd
    rcases List.mem_cons.mp h with h' | h'
    · cases h'
      simp [SMap.lookup]
    · have hne : k ≠ k0 := by
        intro hk
        subst hk
        exact hnd.1 (List.mem_map.mpr ⟨(k, v), h', rfl⟩)
      simp only [SMap.lookup, if_neg hne]
      exact ih hnd.2 h'

/-! ## Data model (`sui-types` primitives used by `temporary_store.rs`) -/

/-- `Owner` (`object.rs`): who an object belongs to. -/
inductive Owner : Type
  | addressOwner (a : Nat)
  | objectOwner (id : Nat)
  | shared (initialSharedVersion : Nat)
  | immutable
  deriving DecidableEq, Repr

/-- The Move type of an object as far as `temporary_store.rs` inspects it:
is it the gas-coin type, some other coin type, or a non-coin type. -/
inductive MoveType : Type
  | gasCoin
  | otherCoin (tag : Nat)
  | nonCoin (tag : Nat)
  deriving DecidableEq, Repr

def MoveType.isCoin : MoveType → Bool
  | .gasCoin => true
  | .otherCoin _ => true
  | .nonCoin _ => false

def MoveType.isGasCoin : MoveType → Bool
  | .gasCoin => true
  | _ => false

/-- The struct tag of a Move type, abstracted to a `Nat`. -/
def MoveType.tag : MoveType → Nat
  | .gasCoin => 0
  | .otherCoin t => t
  | .nonCoin t => t

/-- BCS contents of a Move object. `coin b` stands for bytes that
deserialize as a `Coin` with balance `b`; `raw n` for any other bytes. -/
inductive Contents : Type
  | coin (balance : Nat)
  | raw (bytes : Nat)
  deriving DecidableEq, Repr

/-- `MoveObject`: type, version, contents, and its
`object_size_for_gas_metering` contribution (serialized size, abstract). -/
structure MoveObjectModel : Type where
  ty : MoveType
  version : Nat
  contents : Contents
  size : Nat
  deriving DecidableEq, Repr

/-- `Data`: a Move object or a package (with its own version and size). -/
inductive Data : Type
  | move (m : MoveObjectModel)
  | package (version : Nat) (size : Nat)
  deriving DecidableEq, Repr

/-- `Object { data, owner, previous_transaction, storage_rebate }`; the
object id is carried as a field (in Rust it lives inside the data). -/
structure Object : Type where
  id : Nat
  data : Data
  owner : Owner
  previous_transaction : Nat
  storage_rebate : Nat
  deriving DecidableEq, Repr

/-- `Object::version()`. -/
def Object.version (o : Object) : Nat :=
  match o.data with
  | .move m => m.version
  | .package v _ => v

/-- `Object::is_package()`. -/
def Object.is_package (o : Object) : Bool :=
  match o.data with
  | .move _ => false
  | .package _ _ => true

/-- `Object::is_immutable()`. -/
def Object.is_immutable (o : Object) : Bool :=
  o.owner = Owner.immutable

/-- `Object::struct_tag()`: `some` tag for Move objects, `none` for packages. -/
def Object.struct_tag (o : Object) : Option Nat :=
  match o.data with
  | .move m => some m.ty.tag
  | .package _ _ => none

/-- `Object::object_size_for_gas_metering()`. -/
def Object.object_size_for_gas_metering (o : Object) : Nat :=
  match o.data with
  | .move m => m.size
  | .package _ s => s

/-- `ObjectRef = (ObjectID, SequenceNumber, ObjectDigest)`; digests are
abstracted to `Nat` (`0` everywhere they are computed). -/
abbrev ObjectRef : Type := Nat × Nat × Nat

/-- `Object::compute_object_reference()`; the digest is out of scope and
modelled as `0`. -/
def Object.compute_object_reference (o : Object) : ObjectRef :=
  (o.id, o.version, 0)

/-- Modelled from the spec: `MoveObject::increment_version_to(next)`
(`base_types.rs`, not part of this source slice). Per §4.6 step 3 it stamps
the version of a Move object to the given value; packages are untouched. -/
def Object.increment_version_to (o : Object) (next : Nat) : Object :=
  match o.data with
  | .move m => { o with data := .move { m with version := next } }
  | .package _ _ => o

/-- Modelled from the spec: `Coin::extract_balance_if_coin` (`coin.rs`):
`Ok(Some(balance))` for a Move object of a coin type whose contents decode
as a coin, `Ok(None)` for non-coin objects, `Err` when a coin's contents do
not decode. -/
def extract_balance_if_coin (o : Object) : Except Unit (Option Nat) :=
  match o.data with
  | .move m =>
    if m.ty.isCoin then
      match m.contents with
      | .coin b => .ok (some b)
      | .raw _ => .error ()
    else .ok none
  | .package _ _ => .ok none

/-- The balance stored in a coin object (`0` for anything else); used only
to phrase theorems. -/
def coinBalance (o : Object) : Nat :=
  match o.data with
  | .move m =>
    match m.contents with
    | .coin b => b
    | .raw _ => 0
  | .package _ _ => 0

/-- `SingleTxContext { sender, package_id, transaction_module }`; the
package id and module name are abstracted to `Nat`s. -/
structure SingleTxContext : Type where
  sender : Nat
  package_id : Nat
  transaction_module : Nat
  deriving DecidableEq, Repr

/-- `SingleTxContext::gas(sender)` (sui-framework attribution). -/
def SingleTxContext.gas (sender : Nat) : SingleTxContext := ⟨sender, 2, 100⟩

/-- `SingleTxContext::unused_input(sender)`. -/
def SingleTxContext.unused_input (sender : Nat) : SingleTxContext := ⟨sender, 2, 101⟩

/-- `BalanceChangeType` (`event.rs`). -/
inductive BalanceChangeType : Type
  | gas
  | pay
  | receive
  deriving DecidableEq, Repr

/-- The `Event` variants synthesized or logged by `temporary_store.rs`.
`balanceChange` carries the emitting context, change type, owner, coin id,
version, coin type tag and signed amount, mirroring `Event::balance_change`. -/
inductive Event : Type
  | balanceChange (ctx : SingleTxContext) (ty : BalanceChangeType) (owner : Owner)
      (coinId : Nat) (version : Nat) (coinType : Nat) (amount : Int)
  | deleteObject (package_id : Nat) (transaction_module : Nat) (sender : Nat)
      (object_id : Nat) (version : Nat)
  | transferObject (ctx : SingleTxContext) (owner : Owner) (objectType : Nat)
      (id : Nat) (version : Nat)
  | mutateObject (package_id : Nat) (transaction_module : Nat) (sender : Nat)
      (objectType : Nat) (object_id : Nat) (version : Nat)
  | publish (sender : Nat) (package_id : Nat) (version : Nat) (digest : Nat)
  | newObject (ctx : SingleTxContext) (owner : Owner) (objectType : Nat)
      (id : Nat) (version : Nat)
  deriving DecidableEq, Repr

/-- `WriteKind` (`storage.rs`). -/
inductive WriteKind : Type
  | create
  | mutate
  | unwrap
  deriving DecidableEq, Repr

/-- `DeleteKind` (`storage.rs`). -/
inductive DeleteKind : Type
  | normal
  | unwrapThenDelete
  | wrap
  deriving DecidableEq, Repr

/-- Modelled from the spec: `GasCostSummary` (§6 gas-meter contract). Only
`net_gas_usage`, `gas_used` and `sender_rebate` are consumed by the code
under verification. -/
structure GasCostSummary : Type where
  computationCost : Nat
  storageCost : Nat
  storageRebate : Nat
  nonRefundableStorageFee : Nat
  deriving DecidableEq, Repr

/-- Modelled from the spec: `GasCostSummary::gas_used()`. -/
def GasCostSummary.gas_used (g : GasCostSummary) : Nat :=
  g.computationCost + g.storageCost

/-- Modelled from the spec: `GasCostSummary::net_gas_usage()` — gas used
minus the storage rebate, as a signed quantity. -/
def GasCostSummary.net_gas_usage (g : GasCostSummary) : Int :=
  (g.gas_used : Int) - (g.storageRebate : Int)

/-- Modelled from the spec: `GasCostSummary::sender_rebate(rate)` — the
portion of the storage rebate returned to the sender, with `rate` in basis
points of 10000. -/
def GasCostSummary.sender_rebate (g : GasCostSummary) (rate : Nat) : Nat :=
  g.storageRebate * rate / 10000

/-- Errors crossing function boundaries. `panic` models a Rust panic
(`unwrap` / `expect` / index on a missing key) inside a function that
returns a `Result`; `invariantViolation` models
`ExecutionError::invariant_violation`; `coinOverflow` the overflow error of
`Coin::add`; `gasErr n` an `ExecutionError` produced by the gas meter. -/
inductive ExecErr : Type
  | panic
  | invariantViolation
  | coinOverflow
  | gasErr (n : Nat)
  deriving DecidableEq, Repr

/-! ## `TemporaryStore` and its mutation API -/

/-- A written entry: `(SingleTxContext, Object, WriteKind)`. -/
abbrev WrittenEntry : Type := SingleTxContext × Object × WriteKind

/-- A deleted entry: `(SingleTxContext, SequenceNumber, DeleteKind)`. -/
abbrev DeletedEntry : Type := SingleTxContext × Nat × DeleteKind

/-- `TemporaryStore<S>` (the backing store `S` is not consulted by any of
the operations verified here, so it is omitted). -/
structure Store : Type where
  input_objects : SMap Object
  tx_digest : Nat
  lamport_timestamp : Nat
  mutable_input_refs : List ObjectRef
  written : SMap WrittenEntry
  deleted : SMap DeletedEntry
  events : List Event
  gas_charged : Option (Nat × Nat × GasCostSummary)
  storage_rebate_rate : Nat
  deriving DecidableEq, Repr

/-- `InnerTemporaryStore`, the post-image returned by `into_inner`. -/
structure InnerTemporaryStore : Type where
  objects : SMap Object
  mutable_inputs : List ObjectRef
  written : SMap (ObjectRef × Object × WriteKind)
  deleted : SMap (Nat × DeleteKind)
  events : List Event
  deriving DecidableEq, Repr

/-- `TemporaryStore::write_object` (debug assertions and the
test-only immutability check are debug/test builds only and elided). -/
def Store.write_object (st : Store) (ctx : SingleTxContext) (object : Object)
    (kind : WriteKind) : Store :=
  { st with written :=
      (st.written.insert object.id
        (ctx, { object with previous_transaction := st.tx_digest }, kind)) }

/-- `TemporaryStore::delete_object`. -/
def Store.delete_object (st : Store) (ctx : SingleTxContext) (id : Nat)
    (version : Nat) (kind : DeleteKind) : Store :=
  { st with deleted := st.deleted.insert id (ctx, version, kind) }

/-- `TemporaryStore::log_event`. -/
def Store.log_event (st : Store) (e : Event) : Store :=
  { st with events := st.events ++ [e] }

/-- `TemporaryStore::read_object`: written value if any, else input. -/
def Store.read_object (st : Store) (id : Nat) : Option Object :=
  match st.written.lookup id with
  | some (_, obj, _) => some obj
  | none => st.input_objects.lookup id

/-- `TemporaryStore::drop_writes`. -/
def Store.drop_writes (st : Store) : Store :=
  { st with written := [], deleted := [], events := [] }

/-- `TemporaryStore::dynamic_fields_touched`: written `Mutate` ids and
deleted `Normal` ids that are absent from the input snapshot. -/
def Store.dynamic_fields_touched (st : Store) : List Nat :=
  (st.written.filterMap fun e =>
    match e.2.2.2 with
    | WriteKind.mutate =>
      if st.input_objects.containsKey e.1 then none else some e.1
    | WriteKind.create => none
    | WriteKind.unwrap => none)
  ++
  (st.deleted.filterMap fun e =>
    match e.2.2.2 with
    | DeleteKind.normal =>
      if st.input_objects.containsKey e.1 then none else some e.1
    | DeleteKind.unwrapThenDelete => none
    | DeleteKind.wrap => none)

/-! ## Gas smashing (`smash_gas`) -/

/-- The per-ref mapping inside `smash_gas`: fetch the input object
(`unwrap` panics if absent), require a Move object of the gas-coin type,
and decode its contents as a `Coin`. Errors follow the Rust closure. -/
def collectGasCoins (st : Store) : List ObjectRef → Except ExecErr (List (Object × Nat))
  | [] => .ok []
  | r :: rest =>
    match st.input_objects.lookup r.1 with
    | none => .error .panic
    | some obj =>
      match obj.data with
      | .package _ _ => .error .invariantViolation
      | .move m =>
        if m.ty.isGasCoin then
          match m.contents with
          | .raw _ => .error .invariantViolation
          | .coin b =>
            match collectGasCoins st rest with
            | .error e => .error e
            | .ok pairs => .ok ((obj, b) :: pairs)
        else .error .invariantViolation

/-- `Vec::swap_remove(0)` on `primary :: l` leaves the remainder with the
last element moved to the front. -/
def lastToFront {α : Type} (l : List α) : List α :=
  match l.reverse with
  | [] => []
  | x :: xs => x :: xs.reverse

/-- The merging loop of `smash_gas`: `Coin::add` each other balance into
the running primary balance (checked 64-bit addition, modelled from the
spec's overflow failure mode), then `delete_object(gas ctx, id, version,
Normal)`. Rust mutates in place, so the store reached so far is returned
even on overflow. -/
def smashFold (ctx : SingleTxContext) :
    Store → Nat → List (Object × Nat) → (Except ExecErr Nat) × Store
  | st, bal, [] => (.ok bal, st)
  | st, bal, (obj, b) :: rest =>
    if bal + b < 2 ^ 64 then
      smashFold ctx (st.delete_object ctx obj.id obj.version .normal) (bal + b) rest
    else (.error .coinOverflow, st)

/-- `TemporaryStore::smash_gas`. An empty `gas` slice panics at `gas[0]`. -/
def Store.smash_gas (st : Store) (sender : Nat) (gas : List ObjectRef) :
    (Except ExecErr ObjectRef) × Store :=
  match gas with
  | [] => (.error .panic, st)
  | g0 :: grest =>
    if grest.isEmpty then (.ok g0, st)
    else
      match collectGasCoins st (g0 :: grest) with
      | .error e => (.error e, st)
      | .ok pairs =>
        match pairs with
        | [] => (.error .panic, st)
        | (gasObject, gasCoinBal) :: others =>
          let ctx := SingleTxContext.gas sender
          match smashFold ctx st gasCoinBal (lastToFront others) with
          | (.error e, st') => (.error e, st')
          | (.ok newBalance, st') =>
            match gasObject.data with
            | .package _ _ => (.error .panic, st')
            | .move m =>
              let gasObject' :=
                { gasObject with data := .move { m with contents := .coin newBalance } }
              (.ok g0, st'.write_object ctx gasObject' .mutate)

/-- `ensure_active_inputs_mutated`: collect the unwritten, undeleted
mutable inputs (cloning from the input snapshot; the Rust index panics if
one is missing, hence `Option`), then write each back with kind `Mutate`. -/
def Store.ensure_active_inputs_mutated (st : Store) (sender : Nat) : Option Store :=
  let pending := st.mutable_input_refs.filter fun r =>
    ¬ st.written.containsKey r.1 ∧ ¬ st.deleted.containsKey r.1
  match (pending.mapM fun r => st.input_objects.lookup r.1 : Option (List Object)) with
  | none => none
  | some objs =>
    some (objs.foldl
      (fun s object => s.write_object (SingleTxContext.unused_input sender) object .mutate)
      st)

/-! ## Event synthesis and finalisation (`into_inner`) -/

/-- `is_system_package` (`lib.rs`): membership in the fixed set of system
package ids (0x1 move-stdlib, 0x2 sui-framework, 0x3 sui-system, 0xdee9). -/
def is_system_package (id : Nat) : Bool :=
  id = 1 ∨ id = 2 ∨ id = 3 ∨ id = 0xdee9

/-- `TemporaryStore::create_coin_mutate_events`: balance-delta events for a
mutation of an existing coin. If the coin is the gas coin, `gas_charged` is
first deducted from the old balance. The `(owner equal?, cmp)` match of the
Rust source becomes nested conditionals with identical case order. -/
def create_coin_mutate_events (ctx : SingleTxContext) (gas_id : Option Nat)
    (coin old_coin : Object) (gas_charged : Int) : List Event :=
  let coin_object_type := (coin.struct_tag).getD 0
  match extract_balance_if_coin old_coin, extract_balance_if_coin coin with
  | .ok (some old_balance0), .ok (some balance0) =>
    let old_balance : Int := (old_balance0 : Int)
    let balance : Int := (balance0 : Int)
    let old_balance : Int :=
      if some coin.id = gas_id then old_balance - gas_charged else old_balance
    if old_coin.owner = coin.owner then
      -- same owner: `Ordering::Greater` spends, `Ordering::Less` receives
      if balance < old_balance then
        [Event.balanceChange ctx .pay old_coin.owner old_coin.id old_coin.version
          coin_object_type (balance - old_balance)]
      else if old_balance < balance then
        [Event.balanceChange ctx .receive coin.owner coin.id coin.version
          coin_object_type (balance - old_balance)]
      else []
    else
      -- ownership changed: one spend then one receive
      [Event.balanceChange ctx .pay old_coin.owner coin.id old_coin.version
        coin_object_type (-old_balance),
       Event.balanceChange ctx .receive coin.owner coin.id coin.version
        coin_object_type balance]
  | _, _ => []

/-- The non-coin `Mutate`/`Unwrap` arm of `create_written_events`: package
mutation asserts validator origin (modelled by `none`) and publishes;
otherwise emit transfer and/or mutate events. -/
def nonCoinWriteEvents (ctx : SingleTxContext) (id : Nat) (obj : Object)
    (old_obj : Option Object) : Option (List Event) :=
  if obj.is_package then
    if ctx.sender = 0 ∧ is_system_package id then
      some [Event.publish ctx.sender id obj.version 0]
    else none
  else
    let transfers :=
      if old_obj.map (·.owner) ≠ some obj.owner then
        [Event.transferObject ctx obj.owner ((obj.struct_tag).getD 0) obj.id obj.version]
      else []
    let mutates :=
      if (match old_obj with
          | some o => decide (o.data ≠ obj.data)
          | none => false) then
        [Event.mutateObject ctx.package_id ctx.transaction_module ctx.sender
          ((obj.struct_tag).getD 0) obj.id obj.version]
      else []
    some (transfers ++ mutates)

/-- `TemporaryStore::create_written_events`, with the Rust match arms in
source order; `none` models the release-build `assert!` panics of the
package-mutation arm. -/
def create_written_events (ctx : SingleTxContext) (kind : WriteKind) (id : Nat)
    (obj : Object) (old_obj : Option Object) (gas_id : Option Nat)
    (gas_charged : Int) : Option (List Event) :=
  match kind, extract_balance_if_coin obj, old_obj with
  | .mutate, .ok (some _), some old => some (create_coin_mutate_events ctx gas_id obj old gas_charged)
  | _, .ok (some balance), _ =>
    match obj.owner with
    | Owner.addressOwner _ =>
      some [Event.balanceChange ctx .receive obj.owner obj.id obj.version
        ((obj.struct_tag).getD 0) (balance : Int)]
    | _ => some []
  | .mutate, .ok none, old => nonCoinWriteEvents ctx id obj old
  | .unwrap, .ok none, old => nonCoinWriteEvents ctx id obj old
  | .create, .ok none, _ =>
    some [if obj.is_package then
            Event.publish ctx.sender id obj.version 0
          else
            Event.newObject ctx obj.owner ((obj.struct_tag).getD 0) id obj.version]
  | _, _, _ => some []

/-- The version/owner stamping of one written entry in `into_inner`:
Move objects get `increment_version_to(lamport_timestamp)` (modelled from
the spec as stamping); a shared object written with `Create` asserts a zero
placeholder (release `assert_eq!`, modelled by `none`) and records the
lamport timestamp as its initial shared version. -/
def stampWrittenObject (lamport : Nat) (obj : Object) (kind : WriteKind) : Option Object :=
  let obj := obj.increment_version_to lamport
  match obj.owner with
  | Owner.shared initial =>
    if kind = WriteKind.create then
      if initial = 0 then some { obj with owner := Owner.shared lamport } else none
    else some obj
  | _ => some obj

/-- Processing of one entry of `written` inside `into_inner`: stamp the
object, synthesize its events, and produce the output tuple
`(compute_object_reference, object, kind)`. -/
def processWrittenEntry (st : Store) (gas_id : Option Nat) (gas_charged : Int)
    (e : Nat × WrittenEntry) :
    Option ((Nat × ObjectRef × Object × WriteKind) × List Event) :=
  match e with
  | (id, ctx, obj, kind) =>
    match stampWrittenObject st.lamport_timestamp obj kind with
    | none => none
    | some obj =>
      match create_written_events ctx kind id obj (st.input_objects.lookup id)
          gas_id gas_charged with
      | none => none
      | some evts => some ((id, obj.compute_object_reference, obj, kind), evts)

/-- The written loop of `into_inner`, in iteration order. -/
def processWrittenList (st : Store) (gas_id : Option Nat) (gas_charged : Int) :
    List (Nat × WrittenEntry) →
    Option (List (Nat × ObjectRef × Object × WriteKind) × List Event)
  | [] => some ([], [])
  | e :: rest =>
    match processWrittenEntry st gas_id gas_charged e with
    | none => none
    | some (p, evts) =>
      match processWrittenList st gas_id gas_charged rest with
      | none => none
      | some (pairs, evts') => some (p :: pairs, evts ++ evts')

/-- The deleted loop of `into_inner`: stamp the version to the lamport
timestamp (`SequenceNumber::increment_to`, modelled from the spec), then
synthesize either a coin spend event (owned input coin) or a
`DeleteObject` event. -/
def processDeletedList (st : Store) :
    List (Nat × DeletedEntry) → List (Nat × Nat × DeleteKind) × List Event
  | [] => ([], [])
  | (id, ctx, _version, kind) :: rest =>
    let version := st.lamport_timestamp
    let deleted_obj := st.input_objects.lookup id
    let balance : Option Nat :=
      match deleted_obj with
      | none => none
      | some o =>
        match extract_balance_if_coin o with
        | .ok b => b
        | .error _ => none
    let event :=
      match deleted_obj, balance with
      | some o, some b =>
        Event.balanceChange ctx .pay o.owner id o.version ((o.struct_tag).getD 0)
          (-(b : Int))
      | _, _ =>
        Event.deleteObject ctx.package_id ctx.transaction_module ctx.sender id version
    let (pairs, evts) := processDeletedList st rest
    ((id, version, kind) :: pairs, event :: evts)

/-- The gas-charge extraction at the head of `into_inner`: emit the gas
`BalanceChange` event from the input snapshot of the gas coin (the Rust
index panics — `none` — if the coin is not an input), returning the event
list, the gas id and the signed net gas usage. -/
def gasExtract (st : Store) : Option (List Event × Option Nat × Int) :=
  match st.gas_charged with
  | none => some ([], none, 0)
  | some (sender, coin_id, gc) =>
    match st.input_objects.lookup coin_id with
    | none => none
    | some gas =>
      some ([Event.balanceChange (SingleTxContext.gas sender) .gas gas.owner coin_id
              gas.version ((gas.struct_tag).getD 0) (-(gc.net_gas_usage))],
            some coin_id, gc.net_gas_usage)

/-- `TemporaryStore::into_inner`. `none` models a release-build panic
(failed `assert_eq!`/`assert!` or a missing gas input). The event stream is
gas event, then written-object events, then deleted-object events, then
the user event log. -/
def Store.into_inner (st : Store) : Option InnerTemporaryStore :=
  match gasExtract st with
  | none => none
  | some (gasEvents, gas_id, gas_charged) =>
    match processWrittenList st gas_id gas_charged st.written with
    | none => none
    | some (writtenPairs, writtenEvents) =>
      some
        { objects := st.input_objects
          mutable_inputs := st.mutable_input_refs
          written := writtenPairs.foldl (fun m kv => m.insert kv.1 kv.2) []
          deleted := ((processDeletedList st st.deleted).1).foldl
            (fun m kv => m.insert kv.1 kv.2) []
          events := gasEvents ++ writtenEvents ++
            (processDeletedList st st.deleted).2 ++ st.events }

/-! ## Storage gas charging (`charge_gas_for_storage_changes`, `charge_gas`) -/

/-- Modelled from the spec: the external gas-meter contract of
`SuiGasStatus` (§6). The meter is an abstract state machine over a state
type `σ`; each operation returns a successor state, and errors leave the
given state unchanged. -/
structure GasMeterOps (σ : Type) : Type where
  charge_storage_mutation : σ → Nat → Nat → Except ExecErr (Nat × σ)
  charge_computation_gas_for_storage_mutation : σ → Nat → Except ExecErr σ
  reset_storage_cost_and_rebate : σ → σ
  summary : σ → GasCostSummary
  storage_rebate : σ → Nat
  storage_gas_units : σ → Nat

/-- The written-map loop of `charge_gas_for_storage_changes`. It returns
the loop result together with the written map as left behind by the Rust
loop: `object.storage_rebate = new_storage_rebate` mutates the map entry
in place, so entries processed before a failing charge keep their new
rebate (entries from the failing one on are unchanged). On success it also
returns the accumulated byte total and the staged `objects_to_update`. -/
def chargeWrittenLoop {σ : Type} (M : GasMeterOps σ) (inputs : SMap Object) :
    σ → List (Nat × WrittenEntry) →
    (Except ExecErr (σ × Nat × List WrittenEntry)) × List (Nat × WrittenEntry)
  | g, [] => (.ok (g, 0, []), [])
  | g, (id, ctx, obj, kind) :: rest =>
    let oldPair :=
      match inputs.lookup id with
      | some old => (old.object_size_for_gas_metering, old.storage_rebate)
      | none => (0, 0)
    let new_object_size := obj.object_size_for_gas_metering
    match M.charge_storage_mutation g new_object_size oldPair.2 with
    | .error e => (.error e, (id, ctx, obj, kind) :: rest)
    | .ok (new_storage_rebate, g') =>
      let obj' := { obj with storage_rebate := new_storage_rebate }
      let staged := if obj'.is_immutable then [] else [(ctx, obj', kind)]
      match chargeWrittenLoop M inputs g' rest with
      | (.ok (g'', total, toUpdate), rest') =>
        (.ok (g'', oldPair.1 + new_object_size + total, staged ++ toUpdate),
         (id, ctx, obj', kind) :: rest')
      | (.error e, rest') => (.error e, (id, ctx, obj', kind) :: rest')

/-- The deleted-map loop of `charge_gas_for_storage_changes`: a storage
rebate is issued for each deleted id present in the input snapshot. -/
def chargeDeletedLoop {σ : Type} (M : GasMeterOps σ) (inputs : SMap Object) :
    σ → List (Nat × DeletedEntry) → Except ExecErr (σ × Nat)
  | g, [] => .ok (g, 0)
  | g, (id, _) :: rest =>
    match inputs.lookup id with
    | some old =>
      match M.charge_storage_mutation g 0 old.storage_rebate with
      | .error e => .error e
      | .ok (_, g') =>
        match chargeDeletedLoop M inputs g' rest with
        | .error e => .error e
        | .ok (g'', total) => .ok (g'', old.object_size_for_gas_metering + total)
    | none => chargeDeletedLoop M inputs g rest

/-- `TemporaryStore::charge_gas_for_storage_changes`. The result carries
the store and meter state left behind even when a charge fails, because
the Rust function mutates `self` in place before every possible early
return. -/
def Store.charge_gas_for_storage_changes {σ : Type} (M : GasMeterOps σ) (st : Store)
    (g : σ) (sender : Nat) (gas_object_id : Nat) :
    (Except ExecErr Nat) × Store × σ :=
  match st.read_object gas_object_id with
  | none => (.error .panic, st, g)
  | some gas_object =>
    let st := { st with written :=
      (st.written.entryOrInsert gas_object_id
        (SingleTxContext.gas sender, gas_object, WriteKind.mutate)) }
    match st.ensure_active_inputs_mutated sender with
    | none => (.error .panic, st, g)
    | some st =>
      match chargeWrittenLoop M st.input_objects g st.written with
      | (.error e, written') => (.error e, { st with written := written' }, g)
      | (.ok (g1, totalW, toUpdate), written') =>
        let st := { st with written := written' }
        match chargeDeletedLoop M st.input_objects g1 st.deleted with
        | .error e => (.error e, st, g1)
        | .ok (g2, totalD) =>
          let st := toUpdate.foldl
            (fun s e => s.write_object e.1 e.2.1 e.2.2) st
          (.ok (totalW + totalD), st, g2)

/-- The storage-charging pass of `charge_gas`:
`charge_gas_for_storage_changes(...).and_then(charge_computation_gas_for_storage_mutation)`. -/
def storagePass {σ : Type} (M : GasMeterOps σ) (st : Store) (g : σ)
    (sender : Nat) (gas_object_id : Nat) : (Except ExecErr Unit) × Store × σ :=
  match Store.charge_gas_for_storage_changes M st g sender gas_object_id with
  | (.error e, st', g') => (.error e, st', g')
  | (.ok total, st', g') =>
    match M.charge_computation_gas_for_storage_mutation g' total with
    | .error e => (.error e, st', g')
    | .ok g'' => (.ok (), st', g'')

/-- `TemporaryStore::reset`: drop all writes, reset the meter's storage
cost and rebate, and re-smash gas. The `expect` on re-smashing is modelled
by `none`. -/
def resetStore {σ : Type} (M : GasMeterOps σ) (st : Store) (g : σ) (sender : Nat)
    (gas : List ObjectRef) : Option (Store × σ) :=
  let st := st.drop_writes
  let g := M.reset_storage_cost_and_rebate g
  match st.smash_gas sender gas with
  | (.ok _, st') => some (st', g)
  | (.error _, _) => none

/-- Modelled from the spec: `gas::deduct_gas(gas_object, gas_used, rebate)`
(§4.4 Phase C). The spec gives no arithmetic detail beyond deducting the
charge and crediting the rebate, so the coin balance becomes
`balance + rebate - gas_used` (truncated natural subtraction); no claim
depends on this formula. -/
def deduct_gas (obj : Object) (gas_used : Nat) (rebate : Nat) : Object :=
  match obj.data with
  | .move m =>
    match m.contents with
    | .coin b => { obj with data := .move { m with contents := .coin (b + rebate - gas_used) } }
    | .raw _ => obj
  | .package _ _ => obj

/-- The tail of `charge_gas` (after storage charging, possibly recovered):
compute the summary, deduct gas from the re-fetched gas object (`unwrap`
panic modelled by `none`), re-write it under the preserved context, and
record `gas_charged`. The execution result passes through unchanged. -/
def chargeGasTail {σ : Type} (M : GasMeterOps σ) (st : Store) (g : σ) (sender : Nat)
    (gas_object_id : Nat) (res : Except ExecErr Unit) :
    Option (Store × σ × Except ExecErr Unit) :=
  let cost_summary := M.summary g
  let gas_used := cost_summary.gas_used
  match st.read_object gas_object_id with
  | none => none
  | some gas_object =>
    let gas_object := deduct_gas gas_object gas_used
      (cost_summary.sender_rebate st.storage_rebate_rate)
    let ctx :=
      match st.written.lookup gas_object_id with
      | some (c, _, _) => c
      | none => SingleTxContext.gas sender
    let st := st.write_object ctx gas_object WriteKind.mutate
    some ({ st with gas_charged := some (sender, gas_object_id, cost_summary) }, g, res)

/-- `TemporaryStore::charge_gas`. `none` models a release-build panic: the
two entry assertions on the meter, the `expect` inside `reset`, or the
`unwrap` on the gas object. -/
def Store.charge_gas {σ : Type} (M : GasMeterOps σ) (st : Store) (g : σ)
    (sender : Nat) (gas_object_id : Nat) (execution_result : Except ExecErr Unit)
    (gas : List ObjectRef) : Option (Store × σ × Except ExecErr Unit) :=
  if M.storage_rebate g = 0 ∧ M.storage_gas_units g = 0 then
    let phaseA : Option (Store × σ) :=
      if execution_result.isOk then some (st, g) else resetStore M st g sender gas
    match phaseA with
    | none => none
    | some (st1, g1) =>
      match storagePass M st1 g1 sender gas_object_id with
      | (.ok _, st2, g2) => chargeGasTail M st2 g2 sender gas_object_id execution_result
      | (.error err, st2, g2) =>
        match resetStore M st2 g2 sender gas with
        | none => none
        | some (st3, g3) =>
          -- retry; the retry's own result is only logged
          let retried := storagePass M st3 g3 sender gas_object_id
          let res :=
            if execution_result.isOk then Except.error err else execution_result
          chargeGasTail M retried.2.1 retried.2.2 sender gas_object_id res
  else none

/-! ## Resolver adapter (`get_resource`) -/

/-- `SuiError` values reachable from `get_resource`. -/
inductive SuiErr : Type
  | executionInvariantViolation
  | badObjectType
  deriving DecidableEq, Repr

/-- The final data match of `get_resource`: the `assert!` on the struct tag
and the `unimplemented!` on packages are release panics, modelled by
`none`; a Move object with the requested tag yields its contents. -/
def getResourceData (o : Object) (tag : Nat) : Option (Except SuiErr (Option Contents)) :=
  match o.data with
  | .move m => if m.ty.tag = tag then some (.ok (some m.contents)) else none
  | .package _ _ => none

/-- `ResourceResolver::get_resource` for `TemporaryStore`, with the
duplicated `read_object` lookup of the source kept verbatim: the outer
`None` arm repeats the same lookup, and only inside that repeated lookup's
`Some` arm is `ExecutionInvariantViolation` raised. -/
def Store.get_resource (st : Store) (address : Nat) (tag : Nat) :
    Option (Except SuiErr (Option Contents)) :=
  match st.read_object address with
  | some x => getResourceData x tag
  | none =>
    match st.read_object address with
    | none => some (.ok none)
    | some x =>
      if x.is_immutable then getResourceData x tag
      else some (.error .executionInvariantViolation)

/-! ## Claim C9 — `smash_gas` on a single gas coin is the identity -/

/-- C9: for every store state and every gas slice of exactly one ref,
`smash_gas` returns `Ok(gas[0])` and leaves the store unchanged (no write,
delete, or event is recorded for the single gas coin). -/
theorem smash_gas_singleton (st : Store) (sender : Nat) (r : ObjectRef) :
    st.smash_gas sender [r] = (.ok r, st) := rfl

/-! ## Claim C8 — `get_resource` -/

/-- The `ExecutionInvariantViolation` arm of `get_resource` is dead code:
the second lookup repeats the first, so the inner `Some` branch is
unreachable. -/
theorem getResource_ne_violation (st : Store) (a t : Nat) :
    st.get_resource a t ≠ some (.error SuiErr.executionInvariantViolation) := by
  intro h
  unfold Store.get_resource at h
  cases hr : st.read_object a with
  | some x =>
    rw [hr] at h
    cases hx : x.data with
    | move m =>
      simp only [getResourceData, hx] at h
      by_cases ht : m.ty.tag = t
      · simp [ht] at h
      · simp [ht] at h
    | package v s => simp [getResourceData, hx] at h
  | none =>
    rw [hr] at h
    simp only [hr] at h
    exact (by simp at h)

/-- C8 (counterexample): the claim asserts that `get_resource` raises
`ExecutionInvariantViolation` for some reachable input, but no store,
address and tag can produce that error: the duplicated lookup makes the
raising branch unreachable. -/
theorem get_resource_violation_unreachable :
    ¬ ∃ (st : Store) (a t : Nat),
        st.get_resource a t = some (.error SuiErr.executionInvariantViolation) := by
  rintro ⟨st, a, t, h⟩
  exact getResource_ne_violation st a t h

/-- C8 (amended): `get_resource` returns `Ok(None)` when no object with the
given id is readable locally, returns the Move object's contents when the
object is found with the requested struct tag, and never raises
`ExecutionInvariantViolation` — that branch is unreachable. -/
theorem get_resource_spec (st : Store) (a t : Nat) :
    (st.read_object a = none → st.get_resource a t = some (.ok none)) ∧
    (∀ x m, st.read_object a = some x → x.data = Data.move m → m.ty.tag = t →
      st.get_resource a t = some (.ok (some m.contents))) ∧
    st.get_resource a t ≠ some (.error SuiErr.executionInvariantViolation) := by
  refine ⟨?_, ?_, getResource_ne_violation st a t⟩
  · intro h
    unfold Store.get_resource
    rw [h]
  · intro x m hx hm ht
    unfold Store.get_resource
    rw [hx]
    simp [getResourceData, hm, ht]

/-- A store with empty input snapshot, used to exercise theorems with
hypotheses on concrete data. -/
def emptyStore : Store :=
  { input_objects := []
    tx_digest := 0
    lamport_timestamp := 1
    mutable_input_refs := []
    written := []
    deleted := []
    events := []
    gas_charged := none
    storage_rebate_rate := 9900 }

/-- Witness for C8's amended theorem at a concrete input: the empty store
has nothing readable at id 5, so `get_resource` returns `Ok(None)`. -/
theorem get_resource_spec_witness :
    emptyStore.get_resource 5 0 = some (.ok none) :=
  (get_resource_spec emptyStore 5 0).1 rfl

/-! ## Claim C10 — `dynamic_fields_touched` -/

/-- C10: `dynamic_fields_touched` returns exactly the ids that are written
with kind `Mutate` or deleted with kind `Normal` and absent from the input
snapshot; `Create`/`Unwrap` writes, `Wrap`/`UnwrapThenDelete` deletes, and
ids present in the input snapshot are never returned. -/
theorem dynamic_fields_touched_spec (st : Store) (id : Nat)
    (hw : (st.written.map Prod.fst).Nodup) (hd : (st.deleted.map Prod.fst).Nodup) :
    id ∈ st.dynamic_fields_touched ↔
      ((∃ c o, st.written.lookup id = some (c, o, WriteKind.mutate)) ∧
          st.input_objects.lookup id = none) ∨
      ((∃ c v, st.deleted.lookup id = some (c, v, DeleteKind.normal)) ∧
          st.input_objects.lookup id = none) := by
  unfold Store.dynamic_fields_touched
  constructor
  · intro h
    rcases List.mem_append.mp h with h | h
    · rcases List.mem_filterMap.mp h with ⟨e, he, hfe⟩
      obtain ⟨k, c, o, kind⟩ := e
      left
      cases kind with
      | create => simp at hfe
      | unwrap => simp at hfe
      | mutate =>
        by_cases hc : st.input_objects.containsKey k
        · simp [hc] at hfe
        · simp only [hc] at hfe
          simp only [Bool.false_eq_true, if_false, Option.some.injEq] at hfe
          subst hfe
          refine ⟨⟨c, o, SMap.lookup_of_mem_nodup _ _ _ hw he⟩, ?_⟩
          cases hl : st.input_objects.lookup k with
          | none => rfl
          | some o' => simp [SMap.containsKey, hl] at hc
    · rcases List.mem_filterMap.mp h with ⟨e, he, hfe⟩
      obtain ⟨k, c, v, kind⟩ := e
      right
      cases kind with
      | unwrapThenDelete => simp at hfe
      | wrap => simp at hfe
      | normal =>
        by_cases hc : st.input_objects.containsKey k
        · simp [hc] at hfe
        · simp only [hc] at hfe
          simp only [Bool.false_eq_true, if_false, Option.some.injEq] at hfe
          subst hfe
          refine ⟨⟨c, v, SMap.lookup_of_mem_nodup _ _ _ hd he⟩, ?_⟩
          cases hl : st.input_objects.lookup k with
          | none => rfl
          | some o' => simp [SMap.containsKey, hl] at hc
  · intro h
    have hcontains : ∀ (hin : st.input_objects.lookup id = none),
        st.input_objects.containsKey id = false := by
      intro hin
      simp [SMap.containsKey, hin]
    rcases h with ⟨⟨c, o, hl⟩, hin⟩ | ⟨⟨c, v, hl⟩, hin⟩
    · refine List.mem_append.mpr (Or.inl (List.mem_filterMap.mpr ?_))
      refine ⟨(id, c, o, WriteKind.mutate), SMap.lookup_some_mem _ _ _ hl, ?_⟩
      simp [hcontains hin]
    · refine List.mem_append.mpr (Or.inr (List.mem_filterMap.mpr ?_))
      refine ⟨(id, c, v, DeleteKind.normal), SMap.lookup_some_mem _ _ _ hl, ?_⟩
      simp [hcontains hin]

/-- A store whose only mutation is a `Mutate` write of a fresh id 4 (a
dynamic field), used as concrete data. -/
def storeDyn : Store :=
  { emptyStore with written :=
      [(4, SingleTxContext.gas 0,
        { id := 4, data := Data.move ⟨MoveType.nonCoin 7, 0, Contents.raw 0, 5⟩,
          owner := Owner.addressOwner 9, previous_transaction := 0,
          storage_rebate := 0 }, WriteKind.mutate)] }

/-- Witness for C10 at concrete data: id 4, written with `Mutate` and not
an input, is reported as a touched dynamic field. -/
theorem dynamic_fields_touched_spec_witness :
    4 ∈ storeDyn.dynamic_fields_touched :=
  (dynamic_fields_touched_spec storeDyn 4 (by decide) (by decide)).mpr
    (Or.inl ⟨⟨SingleTxContext.gas 0,
      { id := 4, data := Data.move ⟨MoveType.nonCoin 7, 0, Contents.raw 0, 5⟩,
        owner := Owner.addressOwner 9, previous_transaction := 0,
        storage_rebate := 0 }, rfl⟩, rfl⟩)

/-! ## Claim C5 — coin-mutate event table -/

/-- The event-visible old balance of a mutated coin: when the coin is the
gas coin, `gas_charged` is first subtracted. -/
def adjustedOldBalance (coin : Object) (gas_id : Option Nat) (ob : Nat)
    (gas_charged : Int) : Int :=
  if some coin.id = gas_id then (ob : Int) - gas_charged else (ob : Int)

/-- C5: `create_coin_mutate_events` with both balances known. After the
gas adjustment of the old balance: same owner and old > new gives one Pay
of `new - old` at the old coin's version; same owner and old < new gives
one Receive of `new - old` at the new coin's version; equal balances give
no event; an owner change gives exactly Pay of `-old` attributed to the
old owner at the old version, then Receive of `+new` attributed to the new
owner at the new version. -/
theorem create_coin_mutate_events_spec (ctx : SingleTxContext) (gas_id : Option Nat)
    (coin old_coin : Object) (gas_charged : Int) (ob nb : Nat)
    (hob : extract_balance_if_coin old_coin = .ok (some ob))
    (hnb : extract_balance_if_coin coin = .ok (some nb)) :
    (old_coin.owner = coin.owner →
      (nb : Int) < adjustedOldBalance coin gas_id ob gas_charged →
      create_coin_mutate_events ctx gas_id coin old_coin gas_charged =
        [Event.balanceChange ctx .pay old_coin.owner old_coin.id old_coin.version
          ((coin.struct_tag).getD 0)
          ((nb : Int) - adjustedOldBalance coin gas_id ob gas_charged)]) ∧
    (old_coin.owner = coin.owner →
      adjustedOldBalance coin gas_id ob gas_charged < (nb : Int) →
      create_coin_mutate_events ctx gas_id coin old_coin gas_charged =
        [Event.balanceChange ctx .receive coin.owner coin.id coin.version
          ((coin.struct_tag).getD 0)
          ((nb : Int) - adjustedOldBalance coin gas_id ob gas_charged)]) ∧
    (old_coin.owner = coin.owner →
      adjustedOldBalance coin gas_id ob gas_charged = (nb : Int) →
      create_coin_mutate_events ctx gas_id coin old_coin gas_charged = []) ∧
    (old_coin.owner ≠ coin.owner →
      create_coin_mutate_events ctx gas_id coin old_coin gas_charged =
        [Event.balanceChange ctx .pay old_coin.owner coin.id old_coin.version
          ((coin.struct_tag).getD 0)
          (-(adjustedOldBalance coin gas_id ob gas_charged)),
         Event.balanceChange ctx .receive coin.owner coin.id coin.version
          ((coin.struct_tag).getD 0) (nb : Int)]) := by
  refine ⟨?_, ?_, ?_, ?_⟩
  · intro h1 h2
    simp only [adjustedOldBalance] at h2 ⊢
    simp only [create_coin_mutate_events, hob, hnb]
    by_cases hg : some coin.id = gas_id
    · rw [if_pos hg] at h2 ⊢
      simp [h1, h2]
    · rw [if_neg hg] at h2 ⊢
      simp [h1, h2]
  · intro h1 h2
    simp only [adjustedOldBalance] at h2 ⊢
    simp only [create_coin_mutate_events, hob, hnb]
    by_cases hg : some coin.id = gas_id
    · rw [if_pos hg] at h2 ⊢
      simp [h1, h2, not_lt_of_gt h2]
    · rw [if_neg hg] at h2 ⊢
      simp [h1, h2, not_lt_of_gt h2]
  · intro h1 h2
    simp only [adjustedOldBalance] at h2 ⊢
    simp only [create_coin_mutate_events, hob, hnb]
    by_cases hg : some coin.id = gas_id
    · rw [if_pos hg] at h2
      rw [h2] at *
      simp [h1, hg, h2]
    · rw [if_neg hg] at h2
      simp [h1, hg, h2]
  · intro h1
    simp only [adjustedOldBalance]
    simp only [create_coin_mutate_events, hob, hnb]
    by_cases hg : some coin.id = gas_id
    · simp [h1, hg]
    · simp [h1, hg]

/-- A concrete coin object constructor for witnesses: a gas coin with the
given id, version, owner and balance. -/
def mkCoin (id version ownerAddr balance : Nat) : Object :=
  { id := id
    data := Data.move ⟨MoveType.gasCoin, version, Contents.coin balance, 10⟩
    owner := Owner.addressOwner ownerAddr
    previous_transaction := 0
    storage_rebate := 0 }

/-- Witness for C5 at a concrete input: an ownership change on a coin with
old balance 500 (not the gas coin) and new balance 500 emits exactly the
Pay/Receive pair of the claim's table. -/
theorem create_coin_mutate_events_spec_witness :
    create_coin_mutate_events (SingleTxContext.gas 1) none (mkCoin 3 9 8 500)
        (mkCoin 3 5 7 500) 0 =
      [Event.balanceChange (SingleTxContext.gas 1) .pay (Owner.addressOwner 7) 3 5 0
        (-(500 : Int)),
       Event.balanceChange (SingleTxContext.gas 1) .receive (Owner.addressOwner 8) 3 9 0
        (500 : Int)] := by
  have h := (create_coin_mutate_events_spec (SingleTxContext.gas 1) none
    (mkCoin 3 9 8 500) (mkCoin 3 5 7 500) 0 500 500 rfl rfl).2.2.2 (by decide)
  simpa [adjustedOldBalance, mkCoin, Object.struct_tag, MoveType.tag] using h

/-! ## Claim C1 — non-atomicity of `charge_gas_for_storage_changes` -/

/-- A two-step meter: the first storage charge succeeds with new rebate 7,
every later one fails out-of-gas. -/
def meterTwoStep : GasMeterOps Nat :=
  { charge_storage_mutation := fun g _ _ =>
      if g = 0 then .ok (7, 1) else .error (.gasErr 0)
    charge_computation_gas_for_storage_mutation := fun g _ => .ok g
    reset_storage_cost_and_rebate := fun _ => 0
    summary := fun _ => ⟨0, 0, 0, 0⟩
    storage_rebate := fun _ => 0
    storage_gas_units := fun _ => 0 }

/-- A non-coin Move object with the given id and storage rebate. -/
def mkPlain (id rebate : Nat) : Object :=
  { id := id
    data := Data.move ⟨MoveType.nonCoin 7, 0, Contents.raw 0, 5⟩
    owner := Owner.addressOwner 9
    previous_transaction := 0
    storage_rebate := rebate }

/-- A store holding two written `Mutate` entries (ids 1 and 2, both with
storage rebate 0); id 1 is the gas object. -/
def storeTwoWrites : Store :=
  { emptyStore with written :=
      [(1, SingleTxContext.gas 9, mkPlain 1 0, WriteKind.mutate),
       (2, SingleTxContext.gas 9, mkPlain 2 0, WriteKind.mutate)] }

/-- C1 fails on the code: when the meter grants the charge for object 1
(new rebate 7) and then fails out-of-gas on object 2,
`charge_gas_for_storage_changes` returns the error, yet object 1's
`storage_rebate` in the written map has already been mutated in place from
0 to 7 — the written map is not restored to its pre-call state, despite
the source's own comment that deferring `write_object` "avoids polluting
the temporary store state if this function failed". -/
theorem charge_storage_changes_not_atomic :
    (Store.charge_gas_for_storage_changes meterTwoStep storeTwoWrites 0 9 1).1 =
        .error (.gasErr 0) ∧
    (storeTwoWrites.written.lookup 1).map (fun e => e.2.1.storage_rebate) = some 0 ∧
    (((Store.charge_gas_for_storage_changes meterTwoStep storeTwoWrites 0 9 1).2.1).written.lookup 1).map
        (fun e => e.2.1.storage_rebate) = some 7 := by
  refine ⟨rfl, rfl, rfl⟩

/-! ## `into_inner` helper lemmas -/

theorem increment_version_to_owner (obj : Object) (lam : Nat) :
    (obj.increment_version_to lam).owner = obj.owner := by
  cases hd : obj.data <;> simp [Object.increment_version_to, hd]

theorem increment_version_to_move (obj : Object) (lam : Nat) (m : MoveObjectModel)
    (h : (obj.increment_version_to lam).data = Data.move m) :
    m.version = lam := by
  cases hd : obj.data with
  | move m0 =>
    simp only [Object.increment_version_to, hd, Data.move.injEq] at h
    rw [← h]
  | package v s =>
    simp [Object.increment_version_to, hd] at h

/-- Stamping only rewrites the owner field: the post-stamp data is the
post-version-increment data. -/
theorem stampWrittenObject_data (lam : Nat) (obj : Object) (kind : WriteKind)
    (o2 : Object) (h : stampWrittenObject lam obj kind = some o2) :
    o2.data = (obj.increment_version_to lam).data := by
  unfold stampWrittenObject at h
  cases ho : (obj.increment_version_to lam).owner with
  | shared i =>
    simp only [ho] at h
    by_cases hk : kind = WriteKind.create
    · rw [if_pos hk] at h
      by_cases hi : i = 0
      · rw [if_pos hi] at h
        cases h
        rfl
      · rw [if_neg hi] at h
        cases h
    · rw [if_neg hk] at h
      cases h
      rfl
  | addressOwner a =>
    simp only [ho] at h
    cases h
    rfl
  | objectOwner a =>
    simp only [ho] at h
    cases h
    rfl
  | immutable =>
    simp only [ho] at h
    cases h
    rfl

/-- Stamping a shared `Create` forces a zero placeholder and records the
lamport timestamp. -/
theorem stampWrittenObject_shared_create (lam : Nat) (obj : Object) (v : Nat)
    (o2 : Object) (hov : obj.owner = Owner.shared v)
    (h : stampWrittenObject lam obj WriteKind.create = some o2) :
    v = 0 ∧ o2.owner = Owner.shared lam := by
  unfold stampWrittenObject at h
  have ho : (obj.increment_version_to lam).owner = Owner.shared v := by
    rw [increment_version_to_owner, hov]
  simp only [ho] at h
  by_cases hi : v = 0
  · rw [if_pos hi] at h
    cases h
    exact ⟨hi, rfl⟩
  · rw [if_neg hi] at h
    cases h

/-- Stamping a shared object written with a kind other than `Create`
leaves the initial shared version unchanged. -/
theorem stampWrittenObject_shared_other (lam : Nat) (obj : Object) (v : Nat)
    (kind : WriteKind) (o2 : Object) (hov : obj.owner = Owner.shared v)
    (hk : kind ≠ WriteKind.create)
    (h : stampWrittenObject lam obj kind = some o2) :
    o2.owner = Owner.shared v := by
  unfold stampWrittenObject at h
  have ho : (obj.increment_version_to lam).owner = Owner.shared v := by
    rw [increment_version_to_owner, hov]
  simp only [ho] at h
  rw [if_neg hk] at h
  cases h
  exact ho

theorem processWrittenEntry_eq (st : Store) (gi : Option Nat) (gc : Int)
    (id : Nat) (ctx : SingleTxContext) (obj : Object) (kind : WriteKind)
    (p : Nat × ObjectRef × Object × WriteKind) (ev : List Event)
    (h : processWrittenEntry st gi gc (id, ctx, obj, kind) = some (p, ev)) :
    ∃ o2, stampWrittenObject st.lamport_timestamp obj kind = some o2 ∧
      p = (id, o2.compute_object_reference, o2, kind) := by
  simp only [processWrittenEntry] at h
  cases hs : stampWrittenObject st.lamport_timestamp obj kind with
  | none => rw [hs] at h; cases h
  | some o2 =>
    rw [hs] at h
    dsimp only at h
    cases hc : create_written_events ctx kind id o2 (st.input_objects.lookup id) gi gc with
    | none => rw [hc] at h; cases h
    | some evts =>
      rw [hc] at h
      cases h
      exact ⟨o2, rfl, rfl⟩

theorem processWrittenList_ids (st : Store) (gi : Option Nat) (gc : Int) :
    ∀ (l : List (Nat × WrittenEntry)) wp,
      processWrittenList st gi gc l = some wp →
      wp.1.map Prod.fst = l.map Prod.fst := by
  intro l
  induction l with
  | nil =>
    intro wp h
    cases h
    rfl
  | cons e rest ih =>
    intro wp h
    obtain ⟨id, ctx, obj, kind⟩ := e
    unfold processWrittenList at h
    cases he : processWrittenEntry st gi gc (id, ctx, obj, kind) with
    | none => rw [he] at h; cases h
    | some pe =>
      obtain ⟨p, ev⟩ := pe
      rw [he] at h
      cases hr : processWrittenList st gi gc rest with
      | none => rw [hr] at h; cases h
      | some wr =>
        obtain ⟨pairs, evts⟩ := wr
        rw [hr] at h
        cases h
        obtain ⟨o2, _, hp⟩ := processWrittenEntry_eq st gi gc id ctx obj kind p ev he
        simp only [List.map_cons, hp]
        rw [ih (pairs, evts) hr]

theorem processWrittenList_mem (st : Store) (gi : Option Nat) (gc : Int) :
    ∀ (l : List (Nat × WrittenEntry)) wp e,
      processWrittenList st gi gc l = some wp → e ∈ l →
      ∃ p ev, p ∈ wp.1 ∧ processWrittenEntry st gi gc e = some (p, ev) := by
  intro l
  induction l with
  | nil => intro wp e _ he; simp at he
  | cons e0 rest ih =>
    intro wp e h he
    unfold processWrittenList at h
    cases h0 : processWrittenEntry st gi gc e0 with
    | none => rw [h0] at h; cases h
    | some pe =>
      obtain ⟨p0, ev0⟩ := pe
      rw [h0] at h
      cases hr : processWrittenList st gi gc rest with
      | none => rw [hr] at h; cases h
      | some wr =>
        obtain ⟨pairs, evts⟩ := wr
        rw [hr] at h
        cases h
        rcases List.mem_cons.mp he with he' | he'
        · subst he'
          exact ⟨p0, ev0, List.mem_cons_self _ _, h0⟩
        · obtain ⟨p, ev, hpmem, hpe⟩ := ih (pairs, evts) e hr he'
          exact ⟨p, ev, List.mem_cons_of_mem _ hpmem, hpe⟩

theorem processWrittenList_mem_rev (st : Store) (gi : Option Nat) (gc : Int) :
    ∀ (l : List (Nat × WrittenEntry)) wp p,
      processWrittenList st gi gc l = some wp → p ∈ wp.1 →
      ∃ e ev, e ∈ l ∧ processWrittenEntry st gi gc e = some (p, ev) := by
  intro l
  induction l with
  | nil =>
    intro wp p h hp
    cases h
    simp at hp
  | cons e0 rest ih =>
    intro wp p h hp
    unfold processWrittenList at h
    cases h0 : processWrittenEntry st gi gc e0 with
    | none => rw [h0] at h; cases h
    | some pe =>
      obtain ⟨p0, ev0⟩ := pe
      rw [h0] at h
      cases hr : processWrittenList st gi gc rest with
      | none => rw [hr] at h; cases h
      | some wr =>
        obtain ⟨pairs, evts⟩ := wr
        rw [hr] at h
        cases h
        rcases List.mem_cons.mp hp with hp' | hp'
        · subst hp'
          exact ⟨e0, ev0, List.mem_cons_self _ _, h0⟩
        · obtain ⟨e, ev, hemem, hpe⟩ := ih (pairs, evts) p hr hp'
          exact ⟨e, ev, List.mem_cons_of_mem _ hemem, hpe⟩

theorem processDeletedList_ids (st : Store) :
    ∀ (l : List (Nat × DeletedEntry)),
      (processDeletedList st l).1.map Prod.fst = l.map Prod.fst := by
  intro l
  induction l with
  | nil => rfl
  | cons e rest ih =>
    obtain ⟨id, ctx, v, kind⟩ := e
    simp only [processDeletedList, List.map_cons]
    rw [ih]

theorem processDeletedList_versions (st : Store) :
    ∀ (l : List (Nat × DeletedEntry)) p,
      p ∈ (processDeletedList st l).1 → p.2.1 = st.lamport_timestamp := by
  intro l
  induction l with
  | nil => intro p hp; simp [processDeletedList] at hp
  | cons e rest ih =>
    intro p hp
    obtain ⟨id, ctx, v, kind⟩ := e
    simp only [processDeletedList] at hp
    rcases List.mem_cons.mp hp with hp' | hp'
    · subst hp'
      rfl
    · exact ih p hp'

/-! ## Claims C2, C6, C7 — `into_inner` -/

/-- C2: after `into_inner`, every written object whose data is a Move
object (not a package) carries version `lamport_timestamp`, and every
entry of the output deleted map records version `lamport_timestamp`. -/
theorem into_inner_lamport_versions (st : Store) (inner : InnerTemporaryStore)
    (h : st.into_inner = some inner) :
    (∀ id r o k m, (id, (r, o, k)) ∈ inner.written → o.data = Data.move m →
        m.version = st.lamport_timestamp) ∧
    (∀ id v k, (id, (v, k)) ∈ inner.deleted → v = st.lamport_timestamp) := by
  unfold Store.into_inner at h
  cases hg : gasExtract st with
  | none => rw [hg] at h; cases h
  | some trip =>
    obtain ⟨ge, gi, gc⟩ := trip
    rw [hg] at h
    dsimp only at h
    cases hw : processWrittenList st gi gc st.written with
    | none => rw [hw] at h; cases h
    | some wp =>
      obtain ⟨pairs, evts⟩ := wp
      rw [hw] at h
      dsimp only at h
      cases h
      constructor
      · intro id r o k m hmem hdata
        rcases SMap.mem_foldl_insert pairs [] id (r, o, k) hmem with h' | h'
        · simp at h'
        · obtain ⟨e, ev, hemem, hpe⟩ :=
            processWrittenList_mem_rev st gi gc st.written (pairs, evts) (id, r, o, k) hw h'
          obtain ⟨id0, ctx0, obj0, kind0⟩ := e
          obtain ⟨o2, hs, hp⟩ := processWrittenEntry_eq st gi gc id0 ctx0 obj0 kind0 _ _ hpe
          have ho : o = o2 := congrArg (fun q => q.2.2.1) hp
          have hd2 : (obj0.increment_version_to st.lamport_timestamp).data = Data.move m := by
            rw [← stampWrittenObject_data st.lamport_timestamp obj0 kind0 o2 hs, ← ho]
            exact hdata
          exact increment_version_to_move obj0 st.lamport_timestamp m hd2
      · intro id v k hmem
        rcases SMap.mem_foldl_insert _ [] id (v, k) hmem with h' | h'
        · simp at h'
        · exact processDeletedList_versions st st.deleted (id, v, k) h'

/-- C6: in the event stream produced by `into_inner`, all synthesized
events (the gas `BalanceChange`, then the written-object events in map
iteration order, then the deleted-object events in map iteration order)
precede every user-logged event, and the user-logged suffix is exactly the
event log in `log_event` call order; the written/deleted event groups
follow the respective maps' (ascending) key sequences. -/
theorem into_inner_event_order (st : Store) (inner : InnerTemporaryStore)
    (h : st.into_inner = some inner) :
    ∃ gasEvents gas_id gas_charged wp,
      gasExtract st = some (gasEvents, gas_id, gas_charged) ∧
      processWrittenList st gas_id gas_charged st.written = some wp ∧
      inner.events =
        gasEvents ++ wp.2 ++ (processDeletedList st st.deleted).2 ++ st.events ∧
      wp.1.map Prod.fst = st.written.map Prod.fst ∧
      (processDeletedList st st.deleted).1.map Prod.fst = st.deleted.map Prod.fst := by
  unfold Store.into_inner at h
  cases hg : gasExtract st with
  | none => rw [hg] at h; cases h
  | some trip =>
    obtain ⟨ge, gi, gc⟩ := trip
    rw [hg] at h
    dsimp only at h
    cases hw : processWrittenList st gi gc st.written with
    | none => rw [hw] at h; cases h
    | some wp =>
      obtain ⟨pairs, evts⟩ := wp
      rw [hw] at h
      dsimp only at h
      cases h
      exact ⟨ge, gi, gc, (pairs, evts), rfl, hw, rfl,
        processWrittenList_ids st gi gc st.written (pairs, evts) hw,
        processDeletedList_ids st st.deleted⟩

/-- C7: a written entry with owner `Shared{v}` and kind `Create` passes
`into_inner` only when the placeholder `v` is zero (the asserted
condition), in which case the output object records
`Shared{lamport_timestamp}`; a shared object written with any other kind
keeps its initial shared version unchanged. -/
theorem into_inner_shared_create_stamped (st : Store) (inner : InnerTemporaryStore)
    (hnd : (st.written.map Prod.fst).Nodup)
    (h : st.into_inner = some inner) :
    ∀ id ctx obj kind v, (id, (ctx, obj, kind)) ∈ st.written →
      obj.owner = Owner.shared v →
      (kind = WriteKind.create →
        v = 0 ∧ ∃ r o, inner.written.lookup id = some (r, o, kind) ∧
          o.owner = Owner.shared st.lamport_timestamp) ∧
      (kind ≠ WriteKind.create →
        ∃ r o, inner.written.lookup id = some (r, o, kind) ∧
          o.owner = Owner.shared v) := by
  unfold Store.into_inner at h
  cases hg : gasExtract st with
  | none => rw [hg] at h; cases h
  | some trip =>
    obtain ⟨ge, gi, gc⟩ := trip
    rw [hg] at h
    dsimp only at h
    cases hw : processWrittenList st gi gc st.written with
    | none => rw [hw] at h; cases h
    | some wp =>
      obtain ⟨pairs, evts⟩ := wp
      rw [hw] at h
      dsimp only at h
      cases h
      intro id ctx obj kind v hmem hov
      obtain ⟨p, ev, hpmem, hpe⟩ :=
        processWrittenList_mem st gi gc st.written (pairs, evts) (id, ctx, obj, kind) hw hmem
      obtain ⟨o2, hs, hp⟩ := processWrittenEntry_eq st gi gc id ctx obj kind p ev hpe
      subst hp
      have hl : (pairs.foldl (fun m kv => SMap.insert m kv.1 kv.2)
          ([] : SMap (ObjectRef × Object × WriteKind))).lookup id =
          some (o2.compute_object_reference, o2, kind) := by
        apply SMap.lookup_foldl_insert_of_mem
        · rw [processWrittenList_ids st gi gc st.written (pairs, evts) hw]
          exact hnd
        · exact hpmem
      constructor
      · intro hk
        subst hk
        obtain ⟨hv0, how⟩ :=
          stampWrittenObject_shared_create st.lamport_timestamp obj v o2 hov hs
        exact ⟨hv0, o2.compute_object_reference, o2, hl, how⟩
      · intro hk
        have how :=
          stampWrittenObject_shared_other st.lamport_timestamp obj v kind o2 hov hk hs
        exact ⟨o2.compute_object_reference, o2, hl, how⟩

/-- A non-coin object created at placeholder version 0 (id 3). -/
def objCreateA : Object :=
  { id := 3, data := Data.move ⟨MoveType.nonCoin 7, 0, Contents.raw 0, 5⟩
    owner := Owner.addressOwner 9, previous_transaction := 0, storage_rebate := 0 }

/-- A store with lamport timestamp 7 holding one created object (id 3) and
one deleted id (5). -/
def storeWitA : Store :=
  { emptyStore with
      lamport_timestamp := 7
      written := [(3, SingleTxContext.gas 0, objCreateA, WriteKind.create)]
      deleted := [(5, SingleTxContext.gas 0, 2, DeleteKind.normal)] }

/-- `objCreateA` after version stamping to lamport timestamp 7. -/
def objStampedA : Object :=
  { objCreateA with data := Data.move ⟨MoveType.nonCoin 7, 7, Contents.raw 0, 5⟩ }

/-- Witness for C2 at concrete data: the created object of `storeWitA`
comes out of `into_inner` stamped at version 7 = lamport timestamp. -/
theorem into_inner_lamport_versions_witness :
    (⟨MoveType.nonCoin 7, 7, Contents.raw 0, 5⟩ : MoveObjectModel).version =
      storeWitA.lamport_timestamp :=
  (into_inner_lamport_versions storeWitA ((storeWitA.into_inner).get (by decide))
      (Option.some_get _).symm).1
    3 (3, 7, 0) objStampedA WriteKind.create _ (by decide) rfl

/-- `storeWitA` with one user-logged event. -/
def storeWitB : Store :=
  { storeWitA with events := [Event.publish 1 2 3 4] }

/-- Witness for C6 at concrete data: `storeWitB` finalises, its event
stream decomposes into synthesized events followed by the user log. -/
theorem into_inner_event_order_witness :
    ∃ gasEvents gas_id gas_charged wp,
      gasExtract storeWitB = some (gasEvents, gas_id, gas_charged) ∧
      processWrittenList storeWitB gas_id gas_charged storeWitB.written = some wp ∧
      ((storeWitB.into_inner).get (by decide)).events =
        gasEvents ++ wp.2 ++ (processDeletedList storeWitB storeWitB.deleted).2 ++
          storeWitB.events ∧
      wp.1.map Prod.fst = storeWitB.written.map Prod.fst ∧
      (processDeletedList storeWitB storeWitB.deleted).1.map Prod.fst =
        storeWitB.deleted.map Prod.fst :=
  into_inner_event_order storeWitB _ (Option.some_get _).symm

/-- A shared object created with the zero placeholder (id 4). -/
def objSharedC : Object :=
  { id := 4, data := Data.move ⟨MoveType.nonCoin 8, 0, Contents.raw 0, 5⟩
    owner := Owner.shared 0, previous_transaction := 0, storage_rebate := 0 }

/-- A store with lamport timestamp 7 creating the shared object `objSharedC`. -/
def storeWitC : Store :=
  { emptyStore with
      lamport_timestamp := 7
      written := [(4, SingleTxContext.gas 0, objSharedC, WriteKind.create)] }

/-- Witness for C7 at concrete data: the shared `Create` of `storeWitC`
passes the zero-placeholder assertion and comes out with initial shared
version 7 = lamport timestamp. -/
theorem into_inner_shared_create_stamped_witness :
    (0 : Nat) = 0 ∧ ∃ r o,
      ((storeWitC.into_inner).get (by decide)).written.lookup 4 =
          some (r, o, WriteKind.create) ∧
        o.owner = Owner.shared storeWitC.lamport_timestamp :=
  (into_inner_shared_create_stamped storeWitC ((storeWitC.into_inner).get (by decide))
      (by decide) (Option.some_get _).symm
      4 (SingleTxContext.gas 0) objSharedC WriteKind.create 0 (by decide) rfl).1 rfl

/-! ## Claim C3 — `smash_gas` merges balances and deletes the rest -/

/-- Fallback object for `Option.getD` (never reached under the theorems'
hypotheses). -/
def defaultObject : Object :=
  { id := 0, data := Data.package 0 0, owner := Owner.immutable
    previous_transaction := 0, storage_rebate := 0 }

/-- The input-snapshot object behind a gas ref. -/
def inputObj (st : Store) (r : ObjectRef) : Object :=
  (st.input_objects.lookup r.1).getD defaultObject

/-- The balance of the input-snapshot coin behind a gas ref. -/
def inputBalance (st : Store) (r : ObjectRef) : Nat :=
  match st.input_objects.lookup r.1 with
  | some o => coinBalance o
  | none => 0

/-- The version of the input-snapshot object behind a gas ref. -/
def inputVersion (st : Store) (r : ObjectRef) : Nat :=
  match st.input_objects.lookup r.1 with
  | some o => o.version
  | none => 0

/-- Decidable side condition for `smash_gas`: the ref denotes an input
object that carries the ref's id and is a gas coin with decodable
contents. -/
def gasInputB (st : Store) (r : ObjectRef) : Bool :=
  match st.input_objects.lookup r.1 with
  | none => false
  | some obj =>
    (obj.id == r.1) &&
    (match obj.data with
     | Data.move m =>
       m.ty.isGasCoin &&
         (match m.contents with
          | Contents.coin _ => true
          | Contents.raw _ => false)
     | Data.package _ _ => false)

theorem gasInputB_spec (st : Store) (r : ObjectRef) (h : gasInputB st r = true) :
    st.input_objects.lookup r.1 = some (inputObj st r) ∧
    (inputObj st r).id = r.1 ∧
    (inputObj st r).version = inputVersion st r ∧
    ∃ m, (inputObj st r).data = Data.move m ∧ m.ty.isGasCoin = true ∧
      m.contents = Contents.coin (inputBalance st r) := by
  unfold gasInputB at h
  cases hl : st.input_objects.lookup r.1 with
  | none => simp only [hl] at h; cases h
  | some obj =>
    simp only [hl, Bool.and_eq_true, beq_iff_eq] at h
    obtain ⟨hid, h2⟩ := h
    have hio : inputObj st r = obj := by simp [inputObj, hl]
    rw [hio]
    cases hd : obj.data with
    | package v s => simp only [hd] at h2; simp at h2
    | move m =>
      simp only [hd, Bool.and_eq_true] at h2
      obtain ⟨hgc, hcon⟩ := h2
      cases hc : m.contents with
      | raw n => simp only [hc] at hcon; simp at hcon
      | coin b =>
        have hib : inputBalance st r = b := by
          simp [inputBalance, hl, coinBalance, hd, hc]
        exact ⟨rfl, hid, by simp [inputVersion, hl], m, rfl, hgc, by rw [hc, hib]⟩

theorem collectGasCoins_ok (st : Store) :
    ∀ (l : List ObjectRef), (∀ r ∈ l, gasInputB st r = true) →
      collectGasCoins st l =
        .ok (l.map fun r => (inputObj st r, inputBalance st r)) := by
  intro l
  induction l with
  | nil => intro _; rfl
  | cons r rest ih =>
    intro hg
    obtain ⟨hl, hid, hver, m, hd, hgc, hc⟩ :=
      gasInputB_spec st r (hg r (List.mem_cons_self _ _))
    have htail := ih fun x hx => hg x (List.mem_cons_of_mem _ hx)
    simp [collectGasCoins, hl, hd, hgc, hc, htail]

theorem smashFold_ok (ctx : SingleTxContext) :
    ∀ (l : List (Object × Nat)) (st : Store) (bal : Nat),
      bal + (l.map Prod.snd).sum < 2 ^ 64 →
      smashFold ctx st bal l =
        (.ok (bal + (l.map Prod.snd).sum),
         l.foldl (fun s p => s.delete_object ctx p.1.id p.1.version DeleteKind.normal) st) := by
  intro l
  induction l with
  | nil => intro st bal _; simp [smashFold]
  | cons p rest ih =>
    intro st bal hsum
    obtain ⟨obj, b⟩ := p
    simp only [List.map_cons, List.sum_cons] at hsum ⊢
    have hb : bal + b < 2 ^ 64 := by omega
    simp only [smashFold, if_pos hb, List.foldl_cons]
    rw [ih _ (bal + b) (by omega)]
    have harith : bal + b + (rest.map Prod.snd).sum = bal + (b + (rest.map Prod.snd).sum) := by
      omega
    rw [harith]

/-- A fold of `delete_object` only grows the deleted map; every other
field of the store is untouched. -/
theorem foldl_delete_eq (ctx : SingleTxContext) :
    ∀ (l : List (Object × Nat)) (st : Store),
      l.foldl (fun s p => s.delete_object ctx p.1.id p.1.version DeleteKind.normal) st =
        { st with deleted := ((l.map fun p => (p.1.id, (ctx, p.1.version, DeleteKind.normal))).foldl (fun m kv => SMap.insert m kv.1 kv.2) st.deleted) } := by
  intro l
  induction l with
  | nil => intro st; rfl
  | cons p rest ih =>
    intro st
    simp only [List.foldl_cons, List.map_cons]
    rw [ih]
    rfl

theorem lastToFront_perm {α : Type} (l : List α) : (lastToFront l).Perm l := by
  unfold lastToFront
  cases hr : l.reverse with
  | nil =>
    have hl : l = [] := by simpa using congrArg List.reverse hr
    simp [hl]
  | cons x xs =>
    have hl : l = xs.reverse ++ [x] := by
      have := congrArg List.reverse hr
      simpa [List.reverse_cons] using this
    rw [hl]
    exact (List.perm_append_singleton x xs.reverse).symm

/-- C3: for a gas slice of `n ≥ 2` distinct refs whose objects are all gas
coins present in the input snapshot, and whose total balance fits in a
`u64`, `smash_gas` returns `Ok(gas[0])`, writes the primary coin (gas ctx,
kind `Mutate`) with the sum of all `n` input balances, inserts exactly the
`n-1` non-primary coin ids into the deleted map with `DeleteKind::Normal`
at their input versions, and touches no other key of either map. -/
theorem smash_gas_spec (st : Store) (sender : Nat) (g0 r1 : ObjectRef)
    (rrest : List ObjectRef)
    (hnd : ((g0 :: r1 :: rrest).map (fun r => r.1)).Nodup)
    (hgas : ∀ r ∈ g0 :: r1 :: rrest, gasInputB st r = true)
    (hsum : ((g0 :: r1 :: rrest).map (inputBalance st)).sum < 2 ^ 64) :
    ∃ st',
      st.smash_gas sender (g0 :: r1 :: rrest) = (.ok g0, st') ∧
      (∃ o, st'.written.lookup g0.1 =
          some (SingleTxContext.gas sender, o, WriteKind.mutate) ∧
          coinBalance o = ((g0 :: r1 :: rrest).map (inputBalance st)).sum) ∧
      (∀ r ∈ r1 :: rrest, st'.deleted.lookup r.1 =
          some (SingleTxContext.gas sender, inputVersion st r, DeleteKind.normal)) ∧
      (∀ id, id ∉ (r1 :: rrest).map (fun r => r.1) →
          st'.deleted.lookup id = st.deleted.lookup id) ∧
      (∀ id, id ≠ g0.1 → st'.written.lookup id = st.written.lookup id) := by
  obtain ⟨hl0, hid0, hver0, m0, hd0, hgc0, hc0⟩ :=
    gasInputB_spec st g0 (hgas g0 (List.mem_cons_self _ _))
  have hcollect := collectGasCoins_ok st (g0 :: r1 :: rrest) hgas
  have hperm :
      (lastToFront ((r1 :: rrest).map fun r => (inputObj st r, inputBalance st r))).Perm
        ((r1 :: rrest).map fun r => (inputObj st r, inputBalance st r)) :=
    lastToFront_perm _
  have hsumtail :
      ((lastToFront ((r1 :: rrest).map fun r => (inputObj st r, inputBalance st r))).map
        Prod.snd).sum = ((r1 :: rrest).map (inputBalance st)).sum := by
    rw [(hperm.map Prod.snd).sum_eq, List.map_map]
    rfl
  have hoverflow : inputBalance st g0 +
      ((lastToFront ((r1 :: rrest).map fun r => (inputObj st r, inputBalance st r))).map
        Prod.snd).sum < 2 ^ 64 := by
    rw [hsumtail]
    simpa using hsum
  have hfold := smashFold_ok (SingleTxContext.gas sender)
    (lastToFront ((r1 :: rrest).map fun r => (inputObj st r, inputBalance st r))) st
    (inputBalance st g0) hoverflow
  have hmain : st.smash_gas sender (g0 :: r1 :: rrest) =
      (.ok g0, Store.write_object
        ((lastToFront ((r1 :: rrest).map fun r => (inputObj st r, inputBalance st r))).foldl
          (fun s p => s.delete_object (SingleTxContext.gas sender) p.1.id p.1.version
            DeleteKind.normal) st)
        (SingleTxContext.gas sender)
        { inputObj st g0 with data := Data.move { m0 with contents := Contents.coin (inputBalance st g0 + ((lastToFront ((r1 :: rrest).map fun r => (inputObj st r, inputBalance st r))).map Prod.snd).sum) } }
        WriteKind.mutate) := by
    have hf2 := hfold
    simp only [List.map_cons] at hf2
    simp [Store.smash_gas, hcollect, hf2, hd0]
  refine ⟨_, hmain, ?_, ?_, ?_, ?_⟩
  · -- the primary coin's written entry carries the summed balance
    simp only [Store.write_object, foldl_delete_eq]
    rw [SMap.lookup_insert, if_pos hid0.symm]
    refine ⟨_, rfl, ?_⟩
    simp only [coinBalance]
    rw [hsumtail]
    simp [List.sum_cons]
  · -- each non-primary id is deleted at its input version
    intro r hr
    obtain ⟨hlr, hidr, hverr, mr, hdr, hgcr, hcr⟩ :=
      gasInputB_spec st r (hgas r (List.mem_cons_of_mem _ hr))
    simp only [Store.write_object, foldl_delete_eq]
    apply SMap.lookup_foldl_insert_of_mem
    · rw [List.map_map]
      show (((lastToFront ((r1 :: rrest).map fun r => (inputObj st r, inputBalance st r))).map
        fun p => p.1.id)).Nodup
      have hp1 := hperm.map (fun p : Object × Nat => p.1.id)
      have h2 : (((r1 :: rrest).map fun r => (inputObj st r, inputBalance st r)).map
          fun p => p.1.id) = (r1 :: rrest).map fun r => r.1 := by
        rw [List.map_map]
        apply List.map_congr_left
        intro x hx
        obtain ⟨_, hidx, _, _, _, _, _⟩ :=
          gasInputB_spec st x (hgas x (List.mem_cons_of_mem _ hx))
        exact hidx
      rw [h2] at hp1
      rw [hp1.nodup_iff]
      exact (List.nodup_cons.mp hnd).2
    · refine List.mem_map.mpr ⟨(inputObj st r, inputBalance st r), ?_, ?_⟩
      · exact hperm.mem_iff.mpr (List.mem_map.mpr ⟨r, hr, rfl⟩)
      · show ((inputObj st r).id, (SingleTxContext.gas sender, (inputObj st r).version,
          DeleteKind.normal)) = _
        rw [hidr, hverr]
  · -- other ids keep their deleted-map entries
    intro id hid
    simp only [Store.write_object, foldl_delete_eq]
    show (SMap.lookup _ id) = st.deleted.lookup id
    apply SMap.lookup_foldl_insert_of_not_mem
    intro hmem
    apply hid
    rw [List.map_map] at hmem
    rcases List.mem_map.mp hmem with ⟨p, hp, hpe⟩
    have hp2 := hperm.mem_iff.mp hp
    rcases List.mem_map.mp hp2 with ⟨x, hx, hxe⟩
    obtain ⟨_, hidx, _, _, _, _, _⟩ :=
      gasInputB_spec st x (hgas x (List.mem_cons_of_mem _ hx))
    have hq : p.1.id = id := hpe
    have hpx : p.1 = inputObj st x := by rw [← hxe]
    refine List.mem_map.mpr ⟨x, hx, ?_⟩
    rw [← hq, hpx, hidx]
  · -- other ids keep their written-map entries
    intro id hid
    simp only [Store.write_object, foldl_delete_eq]
    rw [SMap.lookup_insert, if_neg (fun he => hid (by rw [he]; exact hid0))]

/-- Three input gas coins (ids 1, 2, 3) for exercising `smash_gas`. -/
def storeGas3 : Store :=
  { emptyStore with input_objects :=
      [(1, mkCoin 1 5 9 100), (2, mkCoin 2 6 9 50), (3, mkCoin 3 7 9 25)] }

/-- Witness for C3 at concrete data: smashing `[g1(100), g2(50), g3(25)]`
returns the first ref, writes coin 1 with balance 175, and deletes ids 2
and 3 with `Normal`. -/
theorem smash_gas_spec_witness :
    ∃ st',
      storeGas3.smash_gas 0 [(1, 5, 0), (2, 6, 0), (3, 7, 0)] = (.ok (1, 5, 0), st') ∧
      (∃ o, st'.written.lookup 1 =
          some (SingleTxContext.gas 0, o, WriteKind.mutate) ∧
          coinBalance o =
            ([(1, 5, 0), (2, 6, 0), (3, 7, 0)].map (inputBalance storeGas3)).sum) ∧
      (∀ r ∈ [((2 : Nat), (6 : Nat), (0 : Nat)), (3, 7, 0)], st'.deleted.lookup r.1 =
          some (SingleTxContext.gas 0, inputVersion storeGas3 r, DeleteKind.normal)) ∧
      (∀ id, id ∉ [((2 : Nat), (6 : Nat), (0 : Nat)), (3, 7, 0)].map (fun r => r.1) →
          st'.deleted.lookup id = storeGas3.deleted.lookup id) ∧
      (∀ id, id ≠ 1 → st'.written.lookup id = storeGas3.written.lookup id) :=
  smash_gas_spec storeGas3 0 (1, 5, 0) (2, 6, 0) [(3, 7, 0)]
    (by decide) (by decide) (by decide)

/-! ## Claim C4 — `charge_gas` error recovery -/

/-- `chargeGasTail` never changes the execution result it is handed. -/
theorem chargeGasTail_res {σ : Type} (M : GasMeterOps σ) (st : Store) (g : σ)
    (sender gas_object_id : Nat) (res : Except ExecErr Unit)
    (a : Store) (b : σ) (c : Except ExecErr Unit)
    (h : chargeGasTail M st g sender gas_object_id res = some (a, b, c)) : c = res := by
  unfold chargeGasTail at h
  cases hro : st.read_object gas_object_id with
  | none => rw [hro] at h; cases h
  | some gasObject =>
    rw [hro] at h
    dsimp only at h
    cases h
    rfl

/-- C4: if the first storage-charging pass of `charge_gas` fails with
`err`, the store is reset and the pass retried (the retry's own outcome is
dropped), and the final execution result is `Err(err)` if and only if the
caller's `execution_result` was `Ok` — an execution result that was
already an error passes through unchanged. -/
theorem charge_gas_overwrites_iff {σ : Type} (M : GasMeterOps σ) (st : Store) (g : σ)
    (sender gas_object_id : Nat) (execution_result : Except ExecErr Unit)
    (gas : List ObjectRef) (err : ExecErr) (st1 : Store) (g1 : σ)
    (hassert : M.storage_rebate g = 0 ∧ M.storage_gas_units g = 0)
    (hA : (if execution_result.isOk then some (st, g)
           else resetStore M st g sender gas) = some (st1, g1))
    (hfail : (storagePass M st1 g1 sender gas_object_id).1 = .error err) :
    Store.charge_gas M st g sender gas_object_id execution_result gas =
      (match resetStore M (storagePass M st1 g1 sender gas_object_id).2.1
          (storagePass M st1 g1 sender gas_object_id).2.2 sender gas with
       | none => none
       | some (st3, g3) =>
         chargeGasTail M (storagePass M st3 g3 sender gas_object_id).2.1
           (storagePass M st3 g3 sender gas_object_id).2.2 sender gas_object_id
           (if execution_result.isOk then Except.error err else execution_result)) ∧
    (∀ st' g' res',
      Store.charge_gas M st g sender gas_object_id execution_result gas =
        some (st', g', res') →
      res' = if execution_result.isOk then Except.error err else execution_result) := by
  have hsp : storagePass M st1 g1 sender gas_object_id =
      (.error err, (storagePass M st1 g1 sender gas_object_id).2.1,
       (storagePass M st1 g1 sender gas_object_id).2.2) := by
    rw [← hfail]
  have heq : Store.charge_gas M st g sender gas_object_id execution_result gas =
      (match resetStore M (storagePass M st1 g1 sender gas_object_id).2.1
          (storagePass M st1 g1 sender gas_object_id).2.2 sender gas with
       | none => none
       | some (st3, g3) =>
         chargeGasTail M (storagePass M st3 g3 sender gas_object_id).2.1
           (storagePass M st3 g3 sender gas_object_id).2.2 sender gas_object_id
           (if execution_result.isOk then Except.error err else execution_result)) := by
    unfold Store.charge_gas
    rw [if_pos hassert, hA]
    dsimp only
    rw [hsp]
  refine ⟨heq, ?_⟩
  intro st' g' res' hsome
  rw [heq] at hsome
  cases hr : resetStore M (storagePass M st1 g1 sender gas_object_id).2.1
      (storagePass M st1 g1 sender gas_object_id).2.2 sender gas with
  | none => rw [hr] at hsome; cases hsome
  | some p3 =>
    obtain ⟨st3, g3⟩ := p3
    rw [hr] at hsome
    dsimp only at hsome
    exact chargeGasTail_res M _ _ sender gas_object_id _ st' g' res' hsome

/-- A meter whose storage charges always fail out-of-gas (`gasErr 5`). -/
def meterFail : GasMeterOps Nat :=
  { charge_storage_mutation := fun _ _ _ => .error (.gasErr 5)
    charge_computation_gas_for_storage_mutation := fun g _ => .ok g
    reset_storage_cost_and_rebate := fun _ => 0
    summary := fun _ => ⟨0, 0, 0, 0⟩
    storage_rebate := fun _ => 0
    storage_gas_units := fun _ => 0 }

/-- A store holding a single input gas coin (id 1). -/
def storeGasOne : Store :=
  { emptyStore with input_objects := [(1, mkCoin 1 5 9 100)] }

/-- Witness for C4 at concrete data: with an always-failing meter and a
previously-successful execution, `charge_gas` follows the reset-and-retry
path and overwrites the result with the storage error. -/
theorem charge_gas_overwrites_iff_witness :
    (Store.charge_gas meterFail storeGasOne 0 9 1 (Except.ok ()) [(1, 5, 0)] =
      (match resetStore meterFail
          (storagePass meterFail storeGasOne 0 9 1).2.1
          (storagePass meterFail storeGasOne 0 9 1).2.2 9 [(1, 5, 0)] with
       | none => none
       | some (st3, g3) =>
         chargeGasTail meterFail (storagePass meterFail st3 g3 9 1).2.1
           (storagePass meterFail st3 g3 9 1).2.2 9 1
           (if (Except.ok () : Except ExecErr Unit).isOk then
              Except.error (.gasErr 5) else Except.ok ()))) ∧
    (∀ st' g' res',
      Store.charge_gas meterFail storeGasOne 0 9 1 (Except.ok ()) [(1, 5, 0)] =
        some (st', g', res') →
      res' = if (Except.ok () : Except ExecErr Unit).isOk then
        Except.error (.gasErr 5) else Except.ok ()) :=
  charge_gas_overwrites_iff meterFail storeGasOne 0 9 1 (Except.ok ()) [(1, 5, 0)]
    (.gasErr 5) storeGasOne 0 ⟨rfl, rfl⟩ rfl rfl
